import Mathlib

/-!
Verification of the cddpm repository's diffusion-schedule, forward/reverse
diffusion steps, EMA weight tracker, sampling routine, training-loop
checkpointing and test-checkpoint resolution, as a shallow embedding.

Randomness in the source (torch.randn, torch.randint) is modelled by
explicit oracle arguments / streams; a torch 1-D tensor of length n is
modelled as a function on indices (together with a List view where the
length matters); an image batch tensor of shape (B, C, H, W) is modelled
as a function `B → ι → ℝ` with `ι` the abstract per-image index type.
-/

set_option maxHeartbeats 1000000

/- ---------------------------------------------------------------------
Noise schedule (torch.linspace / alpha = 1 - beta / torch.cumprod),
from src/utils/training_utils.py lines 67-70 and src/cddpm.py lines 527-530.
--------------------------------------------------------------------- -/

/-- Element `i` of `torch.linspace(s, e, n)`: `n` evenly spaced points from
`s` to `e` inclusive. -/
def linspace (s e : ℚ) (n : ℕ) (i : ℕ) : ℚ :=
  s + (e - s) * i / ((n : ℚ) - 1)

/-- The `beta` schedule: `beta = torch.linspace(beta_start, beta_end, n_steps)`. -/
def betaFn (s e : ℚ) (n : ℕ) : ℕ → ℚ :=
  linspace s e n

/-- The `alpha` schedule: `alpha = 1. - beta`. -/
def alphaFn (s e : ℚ) (n : ℕ) (i : ℕ) : ℚ :=
  1 - betaFn s e n i

/-- The `alpha_bar` schedule: `alpha_bar = torch.cumprod(alpha, dim=0)`,
the running cumulative product of `alpha`. -/
def alphaBarFn (s e : ℚ) (n : ℕ) : ℕ → ℚ
  | 0 => alphaFn s e n 0
  | t + 1 => alphaBarFn s e n t * alphaFn s e n (t + 1)

/-- The `alpha_bar` tensor viewed as a list of its `n_steps` entries. -/
def alphaBarList (s e : ℚ) (n : ℕ) : List ℚ :=
  (List.range n).map (alphaBarFn s e n)

/-- `n_steps = 1000` (src/utils/training_utils.py line 67, src/cddpm.py line 527). -/
def nSteps : ℕ := 1000

/-- The concrete training `beta` schedule: 1000 steps from 0.0001 to 0.04. -/
def betaQ : ℕ → ℚ := betaFn (1 / 10000) (1 / 25) nSteps

/-- The concrete training `alpha` schedule. -/
def alphaQ : ℕ → ℚ := alphaFn (1 / 10000) (1 / 25) nSteps

/-- The concrete training `alpha_bar` schedule. -/
def alphaBarQ : ℕ → ℚ := alphaBarFn (1 / 10000) (1 / 25) nSteps

/-- The `beta` schedule as real numbers (the forward/reverse steps take
square roots, so they live in `ℝ`). -/
noncomputable def betaR (i : ℕ) : ℝ := (betaQ i : ℝ)

/-- The `alpha` schedule as real numbers. -/
noncomputable def alphaR (i : ℕ) : ℝ := (alphaQ i : ℝ)

/-- The `alpha_bar` schedule as real numbers. -/
noncomputable def alphaBarR (i : ℕ) : ℝ := (alphaBarQ i : ℝ)

/- ---------------------------------------------------------------------
gather / q_xt_x0 / p_xt (src/utils/training_utils.py lines 61-64, 74-83,
212-224; identical math in src/cddpm.py lines 533-547 and 687-701).
--------------------------------------------------------------------- -/

/-- `gather(consts, t)`: gather schedule constants at a batch of timesteps and
reshape to `(-1, 1, 1, 1)`, i.e. one scalar per batch element, broadcast
over the image dimensions. -/
def gather {B : Type} (consts : ℕ → ℝ) (t : B → ℕ) : B → ℝ :=
  fun b => consts (t b)

/-- Training-variant forward closed-form step `q_xt_x0(x0, t)`
(src/utils/training_utils.py lines 74-83).  The fresh standard-normal draw
`torch.randn_like(x0)` is modelled by the explicit argument `noise`,
which has the same shape (type) as `x0`.  Returns the pair `(x_t, noise)`. -/
noncomputable def q_xt_x0 (B ι : Type) (x0 : B → ι → ℝ) (t : B → ℕ)
    (noise : B → ι → ℝ) : (B → ι → ℝ) × (B → ι → ℝ) :=
  let alpha_bar_t := gather alphaBarR t
  let mean := fun b i => Real.sqrt (alpha_bar_t b) * x0 b i
  let std := fun b => Real.sqrt (1 - alpha_bar_t b)
  let x_t := fun b i => mean b i + std b * noise b i
  (x_t, noise)

/-- Reverse step `p_xt(xt, noise, t)` (src/utils/training_utils.py lines
212-224).  The fresh standard-normal draw `z = torch.randn_like(xt)` made on
every call is modelled by the explicit argument `z` of the same shape as
`xt`; `noise` is the predicted noise. -/
noncomputable def p_xt (B ι : Type) (xt : B → ι → ℝ) (noise : B → ι → ℝ)
    (t : B → ℕ) (z : B → ι → ℝ) : B → ι → ℝ :=
  let alpha_t := gather alphaR t
  let alpha_bar_t := gather alphaBarR t
  let beta_t := gather betaR t
  let eps_coef := fun b => (1 - alpha_t b) / Real.sqrt (1 - alpha_bar_t b)
  let mu := fun b i => (xt b i - eps_coef b * noise b i) / Real.sqrt (alpha_t b)
  let std := fun b => Real.sqrt (beta_t b)
  fun b i => mu b i + z b i * std b

/- ---------------------------------------------------------------------
generate_image (src/utils/training_utils.py lines 226-249).
The conditioned model is abstract: `getEncoderHiddenStates` models
`model.get_encoder_hidden_states(batch, batch_size=batch_size)` and
`predict` models `model.model(x, timesteps, encoder_hidden_states=ehs).sample`.
The batch dimension of the tensors is modelled by `ℕ` (only indices below
`batch_size` are populated in the source); `x 0` is the first image `x[0]`.
--------------------------------------------------------------------- -/

/-- The local `n_steps = 1000` of `generate_image`. -/
def genSteps : ℕ := 1000

/-- Abstract conditioned diffusion model used by `generate_image`. -/
structure GenModel (Batch Hidden ι : Type) where
  getEncoderHiddenStates : Batch → ℕ → Hidden
  predict : (ℕ → ι → ℝ) → (ℕ → ℕ) → Hidden → (ℕ → ι → ℝ)

/-- Random-number oracles for `generate_image`, indexed by the batch counter
`it` and the inner step `i`: `randint it i` is the raw stream behind
`torch.randint(n_steps - i, (batch_size,))` (reduced modulo the bound),
`randn it i` is the fresh pure-noise tensor `torch.randn(batch_size, 3,
im_size, im_size)`, and `pz it i` is the fresh draw made inside `p_xt`. -/
structure GenRng (ι : Type) where
  randint : ℕ → ℕ → ℕ → ℕ
  randn : ℕ → ℕ → ℕ → ι → ℝ
  pz : ℕ → ℕ → ℕ → ι → ℝ

/-- One iteration of the inner loop of `generate_image` at step `i`: the
loop variable `x` is overwritten by a fresh noise draw before use (exactly
as in the source), a fresh random timestep vector in `[0, n_steps - i)` is
drawn, noise is predicted conditioned on the batch's hidden states, and one
reverse step is applied. -/
noncomputable def genBody {Batch Hidden ι : Type} (m : GenModel Batch Hidden ι)
    (rng : GenRng ι) (batch : Batch) (batch_size it i : ℕ)
    (x : ℕ → ι → ℝ) : ℕ → ι → ℝ :=
  let timesteps : ℕ → ℕ := fun j => rng.randint it i j % (genSteps - i)
  let x := rng.randn it i
  let encoder_hidden_states := m.getEncoderHiddenStates batch batch_size
  let pred_noise := m.predict x timesteps encoder_hidden_states
  p_xt ℕ ι x pred_noise timesteps (rng.pz it i)

/-- The inner loop `for i in range(count)` of `generate_image`, folding
`genBody` with ascending step index. -/
noncomputable def genIter {Batch Hidden ι : Type} (m : GenModel Batch Hidden ι)
    (rng : GenRng ι) (batch : Batch) (batch_size it : ℕ) :
    ℕ → (ℕ → ι → ℝ) → (ℕ → ι → ℝ)
  | 0, x => x
  | k + 1, x => genBody m rng batch batch_size it k
      (genIter m rng batch batch_size it k x)

/-- Value of the loop variable `x` before the inner loop; it is irrelevant
because the first iteration overwrites it before any use. -/
noncomputable def genInit (ι : Type) : ℕ → ι → ℝ := fun _ _ => 0

/-- The per-batch loop of `generate_image`, threading the batch counter
`it`; returns the list of save events `(file path, saved image)`, where the
saved image is the first image `x[0]` of the final `x` of the inner loop. -/
noncomputable def genBatches {Batch Hidden ι : Type} (m : GenModel Batch Hidden ι)
    (rng : GenRng ι) (fake_image_path : String) (batch_size : ℕ) :
    List Batch → ℕ → List (String × (ι → ℝ))
  | [], _ => []
  | batch :: rest, it =>
      let x := genIter m rng batch batch_size it genSteps (genInit ι)
      (s!"{fake_image_path}/img_{it}.png", x 0) ::
        genBatches m rng fake_image_path batch_size rest (it + 1)

/-- `generate_image(model, fake_image_path, im_size, dataloader, batch_size)`
(src/utils/training_utils.py lines 226-249), as the list of save events it
performs, one per batch of the dataloader. -/
noncomputable def generate_image {Batch Hidden ι : Type} (m : GenModel Batch Hidden ι)
    (rng : GenRng ι) (fake_image_path : String) (dataloader : List Batch)
    (batch_size : ℕ) : List (String × (ι → ℝ)) :=
  genBatches m rng fake_image_path batch_size dataloader 0

/- ---------------------------------------------------------------------
EMAModel (src/utils/training_utils.py lines 123-209).
Parameters and buffers are modelled per-key as real scalars indexed by
`Fin n` / `Fin m`; a shadow entry of `none` models a key that is absent
from the shadow state dict (the KeyError seeding path of the source).
--------------------------------------------------------------------- -/

/-- Constructor configuration of `EMAModel`. -/
structure EMAConfig where
  update_after_step : ℤ
  inv_gamma : ℝ
  power : ℝ
  min_value : ℝ
  max_value : ℝ

/-- The `__init__` defaults: `update_after_step=0, inv_gamma=1.0,
power=2/3, min_value=0.0, max_value=0.9999`. -/
noncomputable def defaultEMA : EMAConfig :=
  ⟨0, 1, 2 / 3, 0, 9999 / 10000⟩

/-- `EMAModel.get_decay(optimization_step)` (src/utils/training_utils.py
lines 167-177). -/
noncomputable def get_decay (update_after_step : ℤ)
    (inv_gamma power min_value max_value : ℝ) (optimization_step : ℤ) : ℝ :=
  let step : ℤ := max 0 (optimization_step - update_after_step - 1)
  let value : ℝ := 1 - (1 + (step : ℝ) / inv_gamma) ^ (-power)
  if step ≤ 0 then 0 else max min_value (min value max_value)

/-- `get_decay` of a configured `EMAModel`. -/
noncomputable def getDecayCfg (c : EMAConfig) (s : ℤ) : ℝ :=
  get_decay c.update_after_step c.inv_gamma c.power c.min_value c.max_value s

/-- `get_decay` with the default configuration. -/
noncomputable def getDecayDefault : ℤ → ℝ :=
  getDecayCfg defaultEMA

/-- Mutable state of an `EMAModel`: the shadow (averaged) parameters and
buffers, the last computed decay, and the optimization-step counter. -/
structure EMAState (n m : ℕ) where
  shadowParams : Fin n → Option ℝ
  shadowBuffers : Fin m → ℝ
  decay : ℝ
  optimization_step : ℤ

/-- The live model passed to `EMAModel.step`: its named parameters (with
their `requires_grad` flags) and named buffers. -/
structure LiveModel (n m : ℕ) where
  params : Fin n → ℝ
  requiresGrad : Fin n → Bool
  buffers : Fin m → ℝ

/-- `EMAModel.step(new_model)` (src/utils/training_utils.py lines 179-209):
recompute the decay from the current `optimization_step`; for each named
parameter, seed the shadow entry from the new parameter if the key is
missing, copy the parameter verbatim if it does not require gradients, and
otherwise blend `shadow*decay + new_param*(1-decay)`; copy every named
buffer verbatim; increment `optimization_step`. -/
noncomputable def emaStep {n m : ℕ} (cfg : EMAConfig) (st : EMAState n m)
    (new_model : LiveModel n m) : EMAState n m :=
  let d := getDecayCfg cfg st.optimization_step
  ⟨fun k =>
      let ema_param := (st.shadowParams k).getD (new_model.params k)
      if new_model.requiresGrad k = false then some (new_model.params k)
      else some (ema_param * d + new_model.params k * (1 - d)),
    fun j => new_model.buffers j,
    d,
    st.optimization_step + 1⟩

/- ---------------------------------------------------------------------
Test-checkpoint resolution in the training entry point
(src/train.py lines 155-180).
--------------------------------------------------------------------- -/

/-- The slice of the JSON configuration consumed by the test branch of
`training(cfg)`.  `train` is `Option Bool` because the source reads it with
`cfg.get("train")` (absent key gives `None`, which is falsy); `ckpt_path`
and `trainer_ckpt_path` are `Option String` for the same reason. -/
structure Config where
  test : Bool
  training : Bool
  train : Option Bool
  ckpt_path : Option String
  trainer_ckpt_path : Option String
deriving DecidableEq

/-- Python truthiness of an optional string: `None` and `""` are falsy. -/
def strTruthy : Option String → Bool
  | none => false
  | some s => !(s == "")

/-- Python truthiness of an optional boolean: `None` is falsy. -/
def optTruthy : Option Bool → Bool
  | none => false
  | some b => b

/-- Checkpoint-path resolution of the test branch as written in the source
(src/train.py lines 167-174): the guards test the `train` key via
`cfg.get("train")`.  `none` models the Python `ckpt_path = None` branch
(no path passed to `trainer.test`). -/
def resolveCkptPath (cfg : Config) (best_model_path : String) : Option String :=
  if strTruthy cfg.ckpt_path && !optTruthy cfg.train then cfg.ckpt_path
  else if strTruthy cfg.trainer_ckpt_path && !optTruthy cfg.train then none
  else some best_model_path

/-- Checkpoint-path resolution as the specification words it: branch (a)
applies when an explicit `config.ckpt_path` is set and the run is *not
simultaneously training*, branch (b) when `config.trainer.ckpt_path` is set
and not training, else branch (c) takes the trainer's best checkpoint.
Modelled from the spec for comparison with `resolveCkptPath`; "training"
is the `training` flag that gates `trainer.fit` (src/train.py line 155). -/
def resolveCkptPathSpec (cfg : Config) (best_model_path : String) : Option String :=
  if strTruthy cfg.ckpt_path && !cfg.training then cfg.ckpt_path
  else if strTruthy cfg.trainer_ckpt_path && !cfg.training then none
  else some best_model_path

/-- Outcome of the test branch: either the `ValueError` raised on an empty
resolved path, or a call of `trainer.test` with the resolved path. -/
inductive TestAction where
  | raiseError : TestAction
  | runTest : Option String → TestAction
deriving DecidableEq

/-- The whole test branch (src/train.py lines 165-180): `none` when
`config.test` is falsy, otherwise the raise/test outcome. -/
def testPhase (cfg : Config) (best_model_path : String) : Option TestAction :=
  if cfg.test then
    let ckpt_path := resolveCkptPath cfg best_model_path
    if ckpt_path == some "" then some TestAction.raiseError
    else some (TestAction.runTest ckpt_path)
  else none

/- ---------------------------------------------------------------------
Minimal training loop checkpointing (src/cddpm.py lines 580-623).
Batch losses are abstract data (the network is opaque); an epoch is its
list of per-batch loss values.
--------------------------------------------------------------------- -/

/-- Average training loss of one epoch: `train_loss / it` where
`train_loss` accumulates `loss.item()` over the batches and
`it = len(train_loader)`. -/
def epochAvg (batchLosses : List ℚ) : ℚ :=
  batchLosses.sum / batchLosses.length

/-- The epoch loop of the minimal training script, threading the Python
variable `prev_loss` across iterations exactly as the source does:
`prev_loss = 1000000` at the start of each epoch (before the batch loop),
the save test `train_loss / it < prev_loss` at the end of the epoch, then
`prev_loss = train_loss / it`.  Returns, per epoch, the pair
(average loss, whether `torch.save` ran). -/
def runEpochs : List (List ℚ) → ℚ → List (ℚ × Bool)
  | [], _ => []
  | ls :: rest, _ =>
      let prev_loss : ℚ := 1000000
      let avg := epochAvg ls
      (avg, decide (avg < prev_loss)) :: runEpochs rest avg

/-- The training loop over a run's epochs (the variable `prev_loss` does
not exist before the first epoch; the seed value is never read). -/
def trainLoop (epochs : List (List ℚ)) : List (ℚ × Bool) :=
  runEpochs epochs 1000000

/- ---------------------------------------------------------------------
Concrete inputs used by the witness theorems.
--------------------------------------------------------------------- -/

/-- Trivial conditioned model over unit types, for witnesses. -/
noncomputable def mUnit : GenModel Unit Unit Unit :=
  ⟨fun _ _ => (), fun x _ _ => x⟩

/-- Trivial random-number oracles, for witnesses. -/
noncomputable def rngUnit : GenRng Unit :=
  ⟨fun _ _ _ => 0, fun _ _ _ _ => 0, fun _ _ _ _ => 0⟩

/-- A concrete EMA state, for witnesses. -/
noncomputable def stWitness : EMAState 1 1 :=
  ⟨fun _ => some 2, fun _ => 3, 0, 5⟩

/-- A concrete EMA state at optimization step 0, for witnesses. -/
noncomputable def stZero : EMAState 1 1 :=
  ⟨fun _ => some 2, fun _ => 3, 0, 0⟩

/-- A concrete live model, for witnesses. -/
noncomputable def mWitness : LiveModel 1 1 :=
  ⟨fun _ => 7, fun _ => true, fun _ => 4⟩

/-- A config that both trains and tests, with an explicit checkpoint path
and no `train` key — the situation where the source and the specification
resolve different checkpoints. -/
def cfgTrainTest : Config :=
  ⟨true, true, none, some "pretrained.ckpt", none⟩

/-- A config that tests without any configured checkpoint path. -/
def cfgNoCkpt : Config :=
  ⟨true, true, none, none, none⟩

/- ---------------------------------------------------------------------
Theorems.
--------------------------------------------------------------------- -/

/-- Every linspace point with index below `n` lies between the endpoints. -/
lemma betaFn_bounds {s e : ℚ} {n : ℕ} (hn : 2 ≤ n) (hse : s < e)
    (i : ℕ) (hi : i < n) : s ≤ betaFn s e n i ∧ betaFn s e n i ≤ e := by
  have hd : (1 : ℚ) ≤ (n : ℚ) - 1 := by
    have : (2 : ℚ) ≤ (n : ℚ) := by exact_mod_cast hn
    linarith
  have hdpos : (0 : ℚ) < (n : ℚ) - 1 := by linarith
  have hic : (i : ℚ) ≤ (n : ℚ) - 1 := by
    have : ((i : ℚ) + 1) ≤ (n : ℚ) := by exact_mod_cast hi
    linarith
  constructor
  · have hnn : 0 ≤ (e - s) * i / ((n : ℚ) - 1) :=
      div_nonneg (mul_nonneg (by linarith) (by positivity)) (le_of_lt hdpos)
    simp only [betaFn, linspace]
    linarith
  · simp only [betaFn, linspace]
    have h1 : (e - s) * i / ((n : ℚ) - 1) ≤ e - s := by
      rw [div_le_iff₀ hdpos]
      exact mul_le_mul_of_nonneg_left hic (by linarith)
    linarith

/-- Positivity of the cumulative product below index `n`. -/
lemma alphaBarFn_pos {s e : ℚ} {n : ℕ} (hn : 2 ≤ n)
    (hse : s < e) (he : e < 1) :
    ∀ t : ℕ, t < n → 0 < alphaBarFn s e n t := by
  intro t
  induction t with
  | zero =>
      intro h0
      have hb := betaFn_bounds hn hse 0 h0
      have : betaFn s e n 0 < 1 := lt_of_le_of_lt hb.2 he
      simp only [alphaBarFn, alphaFn]
      linarith
  | succ k ih =>
      intro hk1
      have hk : k < n := Nat.lt_of_succ_lt hk1
      have hb := betaFn_bounds hn hse (k + 1) hk1
      have hlt : betaFn s e n (k + 1) < 1 := lt_of_le_of_lt hb.2 he
      have : (0 : ℚ) < alphaFn s e n (k + 1) := by
        simp only [alphaFn]; linarith
      exact mul_pos (ih hk) this

/-- C5: for every `n_steps ≥ 2` and `0 < beta_start < beta_end < 1`, the
schedule `beta = linspace(beta_start, beta_end, n_steps)`,
`alpha = 1 - beta`, `alpha_bar = cumprod(alpha)` yields an `alpha_bar`
sequence of length `n_steps` that is strictly decreasing, with
`alpha_bar[0] = 1 - beta_start`, and `0 < beta_t < 1` for every `t`. -/
theorem schedule_monotone (s e : ℚ) (n : ℕ) (hn : 2 ≤ n) (hs : 0 < s)
    (hse : s < e) (he : e < 1) :
    (alphaBarList s e n).length = n ∧
    (∀ t : ℕ, t + 1 < n →
      alphaBarFn s e n (t + 1) < alphaBarFn s e n t) ∧
    alphaBarFn s e n 0 = 1 - s ∧
    (∀ t : ℕ, t < n → 0 < betaFn s e n t ∧ betaFn s e n t < 1) := by
  have hbeta : ∀ t : ℕ, t < n → 0 < betaFn s e n t ∧ betaFn s e n t < 1 := by
    intro t ht
    have hb := betaFn_bounds hn hse t ht
    exact ⟨lt_of_lt_of_le hs hb.1, lt_of_le_of_lt hb.2 he⟩
  refine ⟨by simp [alphaBarList], ?_, ?_, hbeta⟩
  · intro t ht
    have hpos : 0 < alphaBarFn s e n t :=
      alphaBarFn_pos hn hse he t (by omega)
    have halpha : alphaFn s e n (t + 1) < 1 := by
      have := (hbeta (t + 1) ht).1
      simp only [alphaFn]; linarith
    calc alphaBarFn s e n (t + 1)
        = alphaBarFn s e n t * alphaFn s e n (t + 1) := rfl
      _ < alphaBarFn s e n t := mul_lt_of_lt_one_right hpos halpha
  · have hb0 : betaFn s e n 0 = s := by
      simp [betaFn, linspace]
    simp only [alphaBarFn, alphaFn, hb0]

/-- Witness for C5 at `n_steps = 3`, `beta_start = 1/10`, `beta_end = 1/2`. -/
theorem schedule_monotone_witness :
    (alphaBarList (1/10) (1/2) 3).length = 3 ∧
    alphaBarFn (1/10) (1/2) 3 1 < alphaBarFn (1/10) (1/2) 3 0 ∧
    alphaBarFn (1/10) (1/2) 3 0 = 1 - 1/10 ∧
    (0 < betaFn (1/10) (1/2) 3 2 ∧ betaFn (1/10) (1/2) 3 2 < 1) := by
  have h := schedule_monotone (1/10) (1/2) 3 (by norm_num) (by norm_num)
    (by norm_num) (by norm_num)
  exact ⟨h.1, h.2.1 0 (by norm_num), h.2.2.1, h.2.2.2 2 (by norm_num)⟩

/-- C3: for every `x_t`, `predicted_noise` of the same shape, in-range
timestep batch `t` and fresh draw `z` of the same shape as `x_t` (made on
every call, also at `t = 0`), `p_xt` returns `mu + sqrt(beta_t) * z` with
`mu = (x_t - eps_coef * predicted_noise) / sqrt(alpha_t)` and
`eps_coef = (1 - alpha_t) / sqrt(1 - alpha_bar_t)`, the coefficients
gathered from the schedule at `t`. -/
theorem p_xt_spec (B ι : Type) (xt noise : B → ι → ℝ) (t : B → ℕ)
    (z : B → ι → ℝ) (ht : ∀ b, t b < nSteps) :
    p_xt B ι xt noise t z = fun b i =>
      (xt b i - (1 - alphaR (t b)) / Real.sqrt (1 - alphaBarR (t b)) * noise b i) /
        Real.sqrt (alphaR (t b)) + Real.sqrt (betaR (t b)) * z b i := by
  funext b i
  simp only [p_xt, gather]
  ring

/-- Witness for C3 at the timestep batch constantly `0`. -/
theorem p_xt_spec_witness :
    p_xt Unit Unit (fun _ _ => 1) (fun _ _ => 0) (fun _ => 0) (fun _ _ => 1) =
      fun _ _ => ((1 : ℝ) - (1 - alphaR 0) / Real.sqrt (1 - alphaBarR 0) * 0) /
        Real.sqrt (alphaR 0) + Real.sqrt (betaR 0) * 1 :=
  p_xt_spec Unit Unit (fun _ _ => 1) (fun _ _ => 0) (fun _ => 0) (fun _ _ => 1)
    (fun _ => by show (0 : ℕ) < nSteps; decide)

/-- C4: for every clean image batch `x0` and in-range timestep batch `t`,
the training variant `q_xt_x0` returns the pair `(x_t, noise)` with
`x_t = sqrt(alpha_bar_t) * x0 + sqrt(1 - alpha_bar_t) * noise` and
`alpha_bar_t = gather(alpha_bar, t)`; the fresh standard-normal draw is
the explicit `noise` argument of the same shape as `x0`. -/
theorem q_xt_x0_spec (B ι : Type) (x0 : B → ι → ℝ) (t : B → ℕ)
    (noise : B → ι → ℝ) (ht : ∀ b, t b < nSteps) :
    q_xt_x0 B ι x0 t noise =
      (fun b i => Real.sqrt (alphaBarR (t b)) * x0 b i +
        Real.sqrt (1 - alphaBarR (t b)) * noise b i, noise) :=
  rfl

/-- Witness for C4 at the timestep batch constantly `0`. -/
theorem q_xt_x0_spec_witness :
    q_xt_x0 Unit Unit (fun _ _ => 1) (fun _ => 0) (fun _ _ => 2) =
      (fun _ _ => Real.sqrt (alphaBarR 0) * 1 +
        Real.sqrt (1 - alphaBarR 0) * 2, fun _ _ => 2) :=
  q_xt_x0_spec Unit Unit (fun _ _ => 1) (fun _ => 0) (fun _ _ => 2)
    (fun _ => by show (0 : ℕ) < nSteps; decide)

/-- Closed form of `get_decay` under the default configuration. -/
lemma getDecayDefault_eq (s : ℤ) :
    getDecayDefault s =
      if max 0 (s - 1) ≤ 0 then (0 : ℝ)
      else max 0 (min (1 - (1 + ((max 0 (s - 1) : ℤ) : ℝ)) ^ (-(2/3 : ℝ)))
        (9999/10000)) := by
  unfold getDecayDefault getDecayCfg get_decay defaultEMA
  simp only [sub_zero, div_one]

/-- The default decay at optimization step 0 is 0. -/
lemma getDecayCfg_default_zero : getDecayCfg defaultEMA 0 = 0 := by
  have h : getDecayDefault 0 = 0 := by
    rw [getDecayDefault_eq]
    norm_num
  exact h

/-- C7: `get_decay(s)` returns 0 whenever `step = max(0, s - update_after_step
- 1)` is `≤ 0` and otherwise `clamp(1 - (1 + step/inv_gamma)^(-power),
min_value, max_value)`; with the defaults, `get_decay(0) = 0`, `get_decay`
is non-decreasing in its argument, and it never exceeds 0.9999. -/
theorem get_decay_spec :
    (∀ uas : ℤ, ∀ ig pw mn mx : ℝ, ∀ s : ℤ,
      (max 0 (s - uas - 1) ≤ 0 → get_decay uas ig pw mn mx s = 0) ∧
      (0 < max 0 (s - uas - 1) →
        get_decay uas ig pw mn mx s =
          max mn (min (1 - (1 + ((max 0 (s - uas - 1) : ℤ) : ℝ) / ig) ^ (-pw))
            mx))) ∧
    getDecayDefault 0 = 0 ∧
    (∀ s t : ℤ, s ≤ t → getDecayDefault s ≤ getDecayDefault t) ∧
    (∀ s : ℤ, getDecayDefault s ≤ 9999 / 10000) := by
  refine ⟨?_, getDecayCfg_default_zero, ?_, ?_⟩
  · intro uas ig pw mn mx s
    constructor
    · intro h
      simp only [get_decay]
      rw [if_pos h]
    · intro h
      simp only [get_decay]
      rw [if_neg (not_le.mpr h)]
  · intro s t hst
    rw [getDecayDefault_eq, getDecayDefault_eq]
    by_cases h1 : max 0 (s - 1) ≤ 0
    · rw [if_pos h1]
      by_cases h2 : max 0 (t - 1) ≤ 0
      · rw [if_pos h2]
      · rw [if_neg h2]
        exact le_max_left 0 _
    · rw [if_neg h1]
      have h2 : ¬ max 0 (t - 1) ≤ 0 := by omega
      rw [if_neg h2]
      have hmax : max 0 (s - 1) ≤ max 0 (t - 1) := by omega
      have hab : ((max 0 (s - 1) : ℤ) : ℝ) ≤ ((max 0 (t - 1) : ℤ) : ℝ) := by
        exact_mod_cast hmax
      have hnn : (0 : ℝ) ≤ ((max 0 (s - 1) : ℤ) : ℝ) := by
        exact_mod_cast (le_max_left 0 (s - 1))
      have hanti : (1 + ((max 0 (t - 1) : ℤ) : ℝ)) ^ (-(2/3 : ℝ)) ≤
          (1 + ((max 0 (s - 1) : ℤ) : ℝ)) ^ (-(2/3 : ℝ)) :=
        Real.rpow_le_rpow_of_nonpos (by linarith) (by linarith) (by norm_num)
      exact max_le_max le_rfl (min_le_min (by linarith) le_rfl)
  · intro s
    rw [getDecayDefault_eq]
    by_cases h : max 0 (s - 1) ≤ 0
    · rw [if_pos h]
      norm_num
    · rw [if_neg h]
      exact max_le (by norm_num) (min_le_right _ _)

/-- Witness for C7: value at 0, monotonicity between 2 and 5, bound at 7. -/
theorem get_decay_spec_witness :
    getDecayDefault 0 = 0 ∧ getDecayDefault 2 ≤ getDecayDefault 5 ∧
    getDecayDefault 7 ≤ 9999 / 10000 :=
  ⟨get_decay_spec.2.1, get_decay_spec.2.2.1 2 5 (by decide),
    get_decay_spec.2.2.2 7⟩

/-- C8: after one `EMAModel.step(new_model)` call, the decay used is
`get_decay(optimization_step)`; every live parameter that does not require
gradients is copied verbatim into the shadow; every live parameter that
requires gradients (and has a shadow entry `v`) is updated to
`v*decay + new_param*(1-decay)`; every named buffer is copied verbatim;
and `optimization_step` is incremented by exactly 1. -/
theorem ema_step_spec (n m : ℕ) (cfg : EMAConfig) (st : EMAState n m)
    (new_model : LiveModel n m) :
    (emaStep cfg st new_model).decay = getDecayCfg cfg st.optimization_step ∧
    (∀ k : Fin n, new_model.requiresGrad k = false →
      (emaStep cfg st new_model).shadowParams k = some (new_model.params k)) ∧
    (∀ k : Fin n, ∀ v : ℝ, st.shadowParams k = some v →
      new_model.requiresGrad k = true →
      (emaStep cfg st new_model).shadowParams k =
        some (v * getDecayCfg cfg st.optimization_step +
          new_model.params k * (1 - getDecayCfg cfg st.optimization_step))) ∧
    (∀ j : Fin m, (emaStep cfg st new_model).shadowBuffers j =
      new_model.buffers j) ∧
    (emaStep cfg st new_model).optimization_step =
      st.optimization_step + 1 := by
  refine ⟨rfl, ?_, ?_, fun j => rfl, rfl⟩
  · intro k hk
    simp [emaStep, hk]
  · intro k v hv hk
    simp [emaStep, hv, hk]

/-- Witness for C8 on a one-parameter, one-buffer model. -/
theorem ema_step_spec_witness :
    (emaStep defaultEMA stWitness mWitness).shadowParams 0 =
      some (2 * getDecayCfg defaultEMA 5 + 7 * (1 - getDecayCfg defaultEMA 5)) ∧
    (emaStep defaultEMA stWitness mWitness).shadowBuffers 0 = 4 ∧
    (emaStep defaultEMA stWitness mWitness).optimization_step = 5 + 1 :=
  ⟨(ema_step_spec 1 1 defaultEMA stWitness mWitness).2.2.1 0 2 rfl rfl,
    (ema_step_spec 1 1 defaultEMA stWitness mWitness).2.2.2.1 0,
    (ema_step_spec 1 1 defaultEMA stWitness mWitness).2.2.2.2⟩

/-- C10: on the first `step` call (`optimization_step = 0`, default
configuration) the computed decay is 0, so every shadow parameter that
requires gradients is overwritten with the live parameter: after one call
every trainable shadow parameter equals the live one exactly. -/
theorem ema_first_step_copies (n m : ℕ) (st : EMAState n m)
    (new_model : LiveModel n m) (h0 : st.optimization_step = 0) :
    (emaStep defaultEMA st new_model).decay = 0 ∧
    ∀ k : Fin n, new_model.requiresGrad k = true →
      (emaStep defaultEMA st new_model).shadowParams k =
        some (new_model.params k) := by
  have hd : getDecayCfg defaultEMA st.optimization_step = 0 := by
    rw [h0]
    exact getDecayCfg_default_zero
  constructor
  · show getDecayCfg defaultEMA st.optimization_step = 0
    exact hd
  · intro k hk
    simp [emaStep, hk, hd]

/-- Witness for C10 on a one-parameter, one-buffer model at step 0. -/
theorem ema_first_step_copies_witness :
    (emaStep defaultEMA stZero mWitness).decay = 0 ∧
    (emaStep defaultEMA stZero mWitness).shadowParams 0 =
      some (mWitness.params 0) := by
  have h := ema_first_step_copies 1 1 stZero mWitness rfl
  exact ⟨h.1, h.2 0 rfl⟩

/-- C1: evidence that the test-checkpoint precedence of the source keys on
the config key `train` (read with `cfg.get("train")`, which is absent from
the documented configuration schema and is distinct from the `training`
flag that gates `trainer.fit`).  On a run that both trains and tests with
an explicit `ckpt_path`, the source resolves the explicit path while the
specified precedence ("when not simultaneously training") resolves the
trainer's best checkpoint.  The raise-on-empty guard itself behaves as
claimed: with no configured paths and an empty best checkpoint, the branch
raises before testing. -/
theorem training_test_ckpt_precedence_bug :
    resolveCkptPath cfgTrainTest "best.ckpt" = some "pretrained.ckpt" ∧
    resolveCkptPathSpec cfgTrainTest "best.ckpt" = some "best.ckpt" ∧
    testPhase cfgTrainTest "best.ckpt" =
      some (TestAction.runTest (some "pretrained.ckpt")) ∧
    testPhase cfgNoCkpt "" = some TestAction.raiseError := by
  refine ⟨rfl, rfl, rfl, rfl⟩

/-- The raise-before-test guard fires exactly when the resolved checkpoint
path is the empty string (for any tested configuration). -/
theorem testPhase_raises_iff (cfg : Config) (best : String) (h : cfg.test = true) :
    testPhase cfg best = some TestAction.raiseError ↔
      resolveCkptPath cfg best = some "" := by
  simp only [testPhase, h, if_true]
  constructor
  · intro hr
    by_cases he : resolveCkptPath cfg best == some ""
    · exact eq_of_beq he
    · rw [if_neg (by simpa using he)] at hr
      simp at hr
  · intro he
    rw [if_pos (by simpa using he)]

/-- The `runEpochs` fold is pointwise: because `prev_loss` is reset to the
sentinel 1000000 at the start of every epoch before the comparison, the
save flag of each epoch depends only on that epoch's own average loss. -/
lemma runEpochs_eq_map (es : List (List ℚ)) (p : ℚ) :
    runEpochs es p =
      es.map (fun ls => (epochAvg ls, decide (epochAvg ls < 1000000))) := by
  induction es generalizing p with
  | nil => rfl
  | cons ls rest ih => simp [runEpochs, ih]

/-- Entry `e` of the training loop's output. -/
lemma trainLoop_get? (es : List (List ℚ)) (e : ℕ) :
    (trainLoop es).get? e =
      (es.get? e).map (fun ls => (epochAvg ls, decide (epochAvg ls < 1000000))) := by
  rw [trainLoop, runEpochs_eq_map, List.get?_map]

/-- C2 counterexample: the claim "for every epoch e ≥ 1 the weights are
saved exactly when epoch e's average loss is strictly lower than epoch
e-1's average loss" is false for the source loop: with epoch averages 5
then 10, the second epoch still saves (10 < the re-initialized sentinel
1000000) although 10 is not lower than 5. -/
theorem trainLoop_prev_epoch_claim_false :
    ¬ (∀ (es : List (List ℚ)) (e : ℕ) (a0 a1 : ℚ) (s0 s1 : Bool),
        1 ≤ e → (trainLoop es).get? (e - 1) = some (a0, s0) →
        (trainLoop es).get? e = some (a1, s1) → (s1 = true ↔ a1 < a0)) := by
  intro h
  have h0 : (trainLoop [[5], [10]]).get? 0 = some (5, true) := by
    norm_num [trainLoop, runEpochs, epochAvg]
  have h1 : (trainLoop [[5], [10]]).get? 1 = some (10, true) := by
    norm_num [trainLoop, runEpochs, epochAvg]
  have := (h [[5], [10]] 1 5 10 true true le_rfl h0 h1).mp rfl
  norm_num at this

/-- C2 (amended): because `prev_loss` is re-initialized to the sentinel
1000000 at the start of every epoch before the save test, the weights are
saved at the end of an epoch exactly when that epoch's own average
training loss is below 1000000 — the previous epoch's loss is never
consulted. -/
theorem trainLoop_save_sentinel (es : List (List ℚ)) (e : ℕ) (a : ℚ)
    (sv : Bool) (h : (trainLoop es).get? e = some (a, sv)) :
    (sv = true ↔ a < 1000000) ∧
    (∀ ls, es.get? e = some ls → a = epochAvg ls) := by
  rw [trainLoop_get?] at h
  cases hes : es.get? e with
  | none =>
      rw [hes] at h
      exact absurd h (by simp)
  | some ls =>
      rw [hes] at h
      simp only [Option.map_some'] at h
      have ha : epochAvg ls = a := congrArg Prod.fst (Option.some.inj h)
      have hs : decide (epochAvg ls < 1000000) = sv :=
        congrArg Prod.snd (Option.some.inj h)
      subst ha
      constructor
      · rw [← hs]
        simp
      · intro ls2 h2
        exact congrArg epochAvg (Option.some.inj h2)

/-- Witness for the amended C2 on a one-epoch run with average loss 5. -/
theorem trainLoop_save_sentinel_witness :
    ((true : Bool) = true ↔ (5 : ℚ) < 1000000) ∧
    (∀ ls, ([[5]] : List (List ℚ)).get? 0 = some ls → (5 : ℚ) = epochAvg ls) :=
  trainLoop_save_sentinel [[5]] 0 5 true
    (by norm_num [trainLoop, runEpochs, epochAvg])

/-- `generate_image` performs one save event per dataloader batch. -/
lemma genBatches_length {Batch Hidden ι : Type} (m : GenModel Batch Hidden ι)
    (rng : GenRng ι) (p : String) (bsz : ℕ) (dl : List Batch) :
    ∀ it : ℕ, (genBatches m rng p bsz dl it).length = dl.length := by
  induction dl with
  | nil => intro it; rfl
  | cons hd tl ih => intro it; simp [genBatches, ih]

/-- Entry `k` of the save-event list produced by the per-batch loop. -/
lemma genBatches_get? {Batch Hidden ι : Type} (m : GenModel Batch Hidden ι)
    (rng : GenRng ι) (p : String) (bsz : ℕ) (dl : List Batch) :
    ∀ (it k : ℕ) (b : Batch), dl.get? k = some b →
      (genBatches m rng p bsz dl it).get? k =
        some (s!"{p}/img_{it + k}.png",
          genIter m rng b bsz (it + k) genSteps (genInit ι) 0) := by
  induction dl with
  | nil =>
      intro it k b h
      simp at h
  | cons hd tl ih =>
      intro it k b h
      cases k with
      | zero =>
          have hb : hd = b := by simpa using h
          subst hb
          simp [genBatches]
      | succ k2 =>
          have h2 : tl.get? k2 = some b := by simpa using h
          have hrec := ih (it + 1) k2 b h2
          have harith : it + 1 + k2 = it + (k2 + 1) := by omega
          rw [harith] at hrec
          simpa [genBatches] using hrec

/-- C6: for every batch taken from the dataloader, `generate_image` runs
`n_steps` inner iterations; at inner step `i` it draws a fresh pure-noise
tensor and a fresh random timestep vector (the raw `randint` stream reduced
modulo `n_steps - i`), predicts noise conditioned on the batch's encoder
hidden states, and applies one reverse step; after the inner loop it saves
exactly one image per batch — the first image `x[0]` of the final `x` — to
`{fake_image_path}/img_{batch_index}.png`. -/
theorem generate_image_spec (Batch Hidden ι : Type) (m : GenModel Batch Hidden ι)
    (rng : GenRng ι) (fake_image_path : String) (dataloader : List Batch)
    (batch_size : ℕ) :
    (generate_image m rng fake_image_path dataloader batch_size).length =
      dataloader.length ∧
    (∀ k b, dataloader.get? k = some b →
      (generate_image m rng fake_image_path dataloader batch_size).get? k =
        some (s!"{fake_image_path}/img_{k}.png",
          genIter m rng b batch_size k genSteps (genInit ι) 0)) ∧
    (∀ b it i x, genBody m rng b batch_size it i x =
      p_xt ℕ ι (rng.randn it i)
        (m.predict (rng.randn it i)
          (fun j => rng.randint it i j % (genSteps - i))
          (m.getEncoderHiddenStates b batch_size))
        (fun j => rng.randint it i j % (genSteps - i)) (rng.pz it i)) ∧
    (∀ b it k x, genIter m rng b batch_size it (k + 1) x =
      genBody m rng b batch_size it k (genIter m rng b batch_size it k x)) := by
  refine ⟨genBatches_length m rng fake_image_path batch_size dataloader 0,
    ?_, fun b it i x => rfl, fun b it k x => rfl⟩
  intro k b h
  have hrec := genBatches_get? m rng fake_image_path batch_size dataloader 0 k b h
  simpa [generate_image] using hrec

/-- Witness for C6 on a one-batch dataloader. -/
theorem generate_image_spec_witness :
    (generate_image mUnit rngUnit "out" [()] 1).length = 1 ∧
    (generate_image mUnit rngUnit "out" [()] 1).get? 0 =
      some (s!"out/img_{(0 : ℕ)}.png",
        genIter mUnit rngUnit () 1 0 genSteps (genInit Unit) 0) := by
  have h := generate_image_spec Unit Unit Unit mUnit rngUnit "out" [()] 1
  exact ⟨h.1, h.2.1 0 () rfl⟩

/-- Unfolding the last iteration of the inner loop: the loop of length
`n_steps` ends with the body at step index `n_steps - 1`. -/
lemma genIter_top {Batch Hidden ι : Type} (m : GenModel Batch Hidden ι)
    (rng : GenRng ι) (b : Batch) (bsz it : ℕ) (x : ℕ → ι → ℝ) :
    genIter m rng b bsz it genSteps x =
      genBody m rng b bsz it (genSteps - 1)
        (genIter m rng b bsz it (genSteps - 1) x) := rfl

/-- The inner-loop body discards the incoming value of the loop variable
`x` (the source overwrites it with a fresh noise draw before any use). -/
lemma genBody_ignores {Batch Hidden ι : Type} (m : GenModel Batch Hidden ι)
    (rng : GenRng ι) (b : Batch) (bsz it i : ℕ) (x y : ℕ → ι → ℝ) :
    genBody m rng b bsz it i x = genBody m rng b bsz it i y := rfl

/-- C9: at inner step `i` the sampled timestep vector lies in
`[0, n_steps - i)` (a range that shrinks as `i` grows); at the final inner
iteration `i = n_steps - 1` every sampled timestep is 0; and since `x` is
re-drawn from pure noise on every iteration, the final `x` of a batch's
inner loop is a single reverse step applied at timestep 0 to the fresh
noise drawn at the last iteration, independent of the loop's initial value
and of all oracle draws of earlier iterations. -/
theorem generate_image_last_step_spec (Batch Hidden ι : Type)
    (m : GenModel Batch Hidden ι) (rng rng2 : GenRng ι) (b : Batch)
    (batch_size it : ℕ) :
    (∀ i j, i < genSteps →
      rng.randint it i j % (genSteps - i) < genSteps - i) ∧
    (∀ j, rng.randint it (genSteps - 1) j % (genSteps - (genSteps - 1)) = 0) ∧
    (∀ x0, genIter m rng b batch_size it genSteps x0 =
      p_xt ℕ ι (rng.randn it (genSteps - 1))
        (m.predict (rng.randn it (genSteps - 1)) (fun _ => 0)
          (m.getEncoderHiddenStates b batch_size))
        (fun _ => 0) (rng.pz it (genSteps - 1))) ∧
    (∀ x0 x1,
      rng.randint it (genSteps - 1) = rng2.randint it (genSteps - 1) →
      rng.randn it (genSteps - 1) = rng2.randn it (genSteps - 1) →
      rng.pz it (genSteps - 1) = rng2.pz it (genSteps - 1) →
      genIter m rng b batch_size it genSteps x0 =
        genIter m rng2 b batch_size it genSteps x1) := by
  have htime : (fun j => rng.randint it (genSteps - 1) j %
      (genSteps - (genSteps - 1))) = (fun _ : ℕ => (0 : ℕ)) :=
    funext fun j => by simp [genSteps, Nat.mod_one]
  refine ⟨?_, ?_, ?_, ?_⟩
  · intro i j hi
    exact Nat.mod_lt _ (by omega)
  · intro j
    simp [genSteps, Nat.mod_one]
  · intro x0
    rw [genIter_top]
    simp only [genBody]
    rw [htime]
  · intro x0 x1 h1 h2 h3
    rw [genIter_top, genIter_top,
      genBody_ignores m rng b batch_size it (genSteps - 1)
        (genIter m rng b batch_size it (genSteps - 1) x0)
        (genIter m rng2 b batch_size it (genSteps - 1) x1)]
    simp only [genBody]
    rw [h1, h2, h3]

/-- Witness for C9 with trivial model and oracles. -/
theorem generate_image_last_step_spec_witness :
    (rngUnit.randint 0 0 0 % (genSteps - 0) < genSteps - 0) ∧
    (rngUnit.randint 0 (genSteps - 1) 0 % (genSteps - (genSteps - 1)) = 0) ∧
    (genIter mUnit rngUnit () 1 0 genSteps (genInit Unit) =
      p_xt ℕ Unit (rngUnit.randn 0 (genSteps - 1))
        (mUnit.predict (rngUnit.randn 0 (genSteps - 1)) (fun _ => 0)
          (mUnit.getEncoderHiddenStates () 1))
        (fun _ => 0) (rngUnit.pz 0 (genSteps - 1))) ∧
    (genIter mUnit rngUnit () 1 0 genSteps (genInit Unit) =
      genIter mUnit rngUnit () 1 0 genSteps (fun _ _ => 5)) := by
  have h := generate_image_last_step_spec Unit Unit Unit mUnit rngUnit rngUnit
    () 1 0
  exact ⟨h.1 0 0 (by decide), h.2.1 0, h.2.2.1 (genInit Unit),
    h.2.2.2 (genInit Unit) (fun _ _ => 5) rfl rfl rfl⟩
